import Mathlib

/-!
Shallow embedding of the frame compositor of `gif2png` (`src/main.go`):
the functions `gifFrameToImage` and `drawFrame`, together with the parts of
Go's `image` / `image/draw` packages they invoke (`image.NewRGBA`,
`draw.Draw` with the `Over` and `Src` operators, `image.Transparent`,
paletted-image color lookup).  Colors are modelled at the 16-bit scale of
Go's `color.Color.RGBA()` (alpha-premultiplied, channels in `0..65535`),
and `draw.Over` by its Porter-Duff definition
`out = src + dst * (0xffff - srcAlpha) / 0xffff` per channel, which is the
documented semantics of `draw.Over`.  Rasters are rectangles over ℤ with a
total pixel function; every constructor keeps pixels outside the rectangle
transparent, mirroring the zero value returned by `image.RGBA.At` outside
bounds.
-/

namespace Gif2Png

/-- Alpha-premultiplied color at the 16-bit scale of Go's
`color.Color.RGBA()`: each channel lies in `0..65535` in a well-formed
color. -/
structure Color where
  r : ℕ
  g : ℕ
  b : ℕ
  a : ℕ
deriving DecidableEq

/-- The maximal channel value `0xffff` of Go's 16-bit color space. -/
def colorMax : ℕ := 65535

/-- The zero color, i.e. Go's `color.Transparent` / the zero `color.RGBA`. -/
def Color.transparent : Color := ⟨0, 0, 0, 0⟩

/-- One channel of Go's `draw.Over`: `out = s + d * (0xffff - sa) / 0xffff`. -/
def overChannel (d s sa : ℕ) : ℕ := s + d * (colorMax - sa) / colorMax

/-- Porter-Duff source-over compositing (`draw.Over`) of `src` onto `dst`. -/
def Color.over (dst src : Color) : Color :=
  ⟨overChannel dst.r src.r src.a, overChannel dst.g src.g src.a,
   overChannel dst.b src.b src.a, overChannel dst.a src.a src.a⟩

/-- An axis-aligned rectangle, Go's `image.Rectangle` (min inclusive,
max exclusive). -/
structure Rect where
  minX : ℤ
  minY : ℤ
  maxX : ℤ
  maxY : ℤ
deriving DecidableEq

/-- Membership of the point `(x, y)` in a rectangle, Go's `Point.In`. -/
def Rect.contains (rc : Rect) (x y : ℤ) : Bool :=
  decide (rc.minX ≤ x) && decide (x < rc.maxX) &&
  decide (rc.minY ≤ y) && decide (y < rc.maxY)

/-- Go's `image.RGBA`: a rectangle plus a pixel function.  All constructors
below keep pixels outside the rectangle transparent, like the zero bytes of
a freshly allocated `image.RGBA` buffer. -/
structure RGBA where
  rect : Rect
  pix : ℤ → ℤ → Color

/-- Go's `image.NewRGBA`: a canvas whose pixels are all zero. -/
def newRGBA (b : Rect) : RGBA := ⟨b, fun _ _ => Color.transparent⟩

/-- Go's `image.RGBA.At`: the pixel inside the bounds, the zero color
outside them. -/
def RGBA.pixAt (m : RGBA) (x y : ℤ) : Color :=
  if m.rect.contains x y then m.pix x y else Color.transparent

/-- Go's `image.Paletted`: a rectangle, a palette, and a per-point palette
index (already at 16-bit color scale in the palette). -/
structure Paletted where
  rect : Rect
  palette : List Color
  colorIndexAt : ℤ → ℤ → ℕ

/-- Go's `image.Paletted.At`: `ColorIndexAt` returns index 0 outside the
bounds; the palette lookup then yields the color. -/
def Paletted.colorAt (p : Paletted) (x y : ℤ) : Color :=
  p.palette.getD (if p.rect.contains x y then p.colorIndexAt x y else 0)
    Color.transparent

/-- The two compositing operators of `image/draw` used by `main.go`. -/
inductive Op where
  | over
  | src
deriving DecidableEq

/-- Combine a destination and a source pixel with a compositing operator. -/
def applyOp (op : Op) (d s : Color) : Color :=
  match op with
  | .over => d.over s
  | .src => s

/-- Go's `draw.Draw(dst, r, src, sp, op)`: for each destination point `p`
inside `r`, inside `dst`'s bounds, and whose source point
`sp + (p - r.Min)` lies inside the source's bounds, combine the source
pixel onto the destination pixel with `op`; all other pixels are
unchanged.  This is the per-pixel reading of `image/draw`'s `clip` plus
its drawing loop.  The source is passed as its bounds plus its `At`
function so that `image.Paletted`, `image.RGBA` and `image.Uniform`
sources all fit. -/
def drawDraw (dst : RGBA) (r : Rect) (srcRect : Rect) (srcAt : ℤ → ℤ → Color)
    (spx spy : ℤ) (op : Op) : RGBA :=
  { rect := dst.rect
    pix := fun x y =>
      if r.contains x y && dst.rect.contains x y &&
          srcRect.contains (spx + (x - r.minX)) (spy + (y - r.minY)) then
        applyOp op (dst.pix x y)
          (srcAt (spx + (x - r.minX)) (spy + (y - r.minY)))
      else dst.pix x y }

/-- The bounds of Go's `image.Uniform` (`image.Transparent` among them):
`Rect(-1e9, -1e9, 1e9, 1e9)`. -/
def uniformRect : Rect := ⟨-(10 ^ 9), -(10 ^ 9), 10 ^ 9, 10 ^ 9⟩

/-- A paletted frame used when a frame index is out of range; the Go code
never reaches it for the in-range indices the claims quantify over. -/
def defaultPaletted : Paletted := ⟨⟨0, 0, 0, 0⟩, [], fun _ _ => 0⟩

/-- Go's `gif.GIF` restricted to the two fields `main.go` reads: the frame
list `Image` and the parallel disposal list `Disposal`. -/
structure GIF where
  image : List Paletted
  disposal : List ℕ

/-- Disposal constant `disposalNone = 0x01` of `main.go`. -/
def disposalNone : ℕ := 1

/-- Disposal constant `disposalBackground = 0x02` of `main.go`. -/
def disposalBackground : ℕ := 2

/-- Disposal constant `disposalPrevious = 0x03` of `main.go`. -/
def disposalPrevious : ℕ := 3

/-- `drawFrame(dst, src, bounds)` of `main.go`:
`draw.Draw(dst, bounds, src, bounds.Min, draw.Over)`. -/
def drawFrame (dst : RGBA) (src : Paletted) (bounds : Rect) : RGBA :=
  drawDraw dst bounds src.rect src.colorAt bounds.minX bounds.minY Op.over

/-- Lines 43-46 of `main.go`: `disposal := uint8(0);
if i < len(gif.Disposal) { disposal = gif.Disposal[i] }`. -/
def effectiveDisposal (g : GIF) (i : ℕ) : ℕ :=
  if i < g.disposal.length then g.disposal.getD i 0 else 0

/-- Line 53 of `main.go`:
`draw.Draw(img, bounds, image.Transparent, image.Point{}, draw.Src)`. -/
def clearToTransparent (img : RGBA) (bounds : Rect) : RGBA :=
  drawDraw img bounds uniformRect (fun _ _ => Color.transparent) 0 0 Op.src

/-- Lines 58-59 of `main.go`: `temp := image.NewRGBA(bounds);
draw.Draw(temp, bounds, img, bounds.Min, draw.Over)`. -/
def copyCanvas (img : RGBA) (bounds : Rect) : RGBA :=
  drawDraw (newRGBA bounds) bounds img.rect img.pixAt bounds.minX bounds.minY
    Op.over

/-- One iteration of the compositing loop of `gifFrameToImage`
(lines 42-70 of `main.go`): look up the disposal code for frame `i` and
dispatch on it. -/
def compositeStep (g : GIF) (bounds : Rect) (img : RGBA) (i : ℕ) : RGBA :=
  let d := effectiveDisposal g i
  if d = disposalNone then
    drawFrame img (g.image.getD i defaultPaletted) bounds
  else if d = disposalBackground then
    drawFrame (clearToTransparent img bounds)
      (g.image.getD i defaultPaletted) bounds
  else if d = disposalPrevious then
    if 0 < i then
      drawDraw (drawFrame img (g.image.getD i defaultPaletted) bounds) bounds
        (copyCanvas img bounds).rect (copyCanvas img bounds).pixAt
        bounds.minX bounds.minY Op.over
    else
      drawFrame img (g.image.getD i defaultPaletted) bounds
  else
    drawFrame img (g.image.getD i defaultPaletted) bounds

/-- The compositing loop `for i := 0; i <= frame; i++` of
`gifFrameToImage`, run up to and including index `n`, starting from the
freshly allocated canvas. -/
def compositeUpTo (g : GIF) (bounds : Rect) : ℕ → RGBA
  | 0 => compositeStep g bounds (newRGBA bounds) 0
  | n + 1 => compositeStep g bounds (compositeUpTo g bounds n) (n + 1)

/-- `gifFrameToImage(gif, frame)` of `main.go`: bounds are the target
frame's own rectangle; frame 0 is drawn directly onto the fresh canvas,
later frames replay the disposal-aware loop over indices `0..frame`. -/
def gifFrameToImage (g : GIF) (frame : ℕ) : RGBA :=
  if frame = 0 then
    drawFrame (newRGBA (g.image.getD frame defaultPaletted).rect)
      (g.image.getD frame defaultPaletted)
      (g.image.getD frame defaultPaletted).rect
  else
    compositeUpTo g (g.image.getD frame defaultPaletted).rect frame

/-- A concrete one-pixel rectangle used by witnesses and counterexamples. -/
def exRect : Rect := ⟨0, 0, 1, 1⟩

/-- Opaque red at 16-bit scale. -/
def exRed : Color := ⟨65535, 0, 0, 65535⟩

/-- Opaque blue at 16-bit scale. -/
def exBlue : Color := ⟨0, 0, 65535, 65535⟩

/-- A one-pixel frame whose single pixel is opaque red. -/
def exFrameRed : Paletted := ⟨exRect, [exRed], fun _ _ => 0⟩

/-- A one-pixel frame whose single pixel is opaque blue. -/
def exFrameBlue : Paletted := ⟨exRect, [exBlue], fun _ _ => 0⟩

/-- A one-pixel frame whose single pixel is fully transparent. -/
def exFrameClear : Paletted := ⟨exRect, [Color.transparent], fun _ _ => 0⟩

/-- Two-frame animation: opaque red frame with disposal `RestoreBackground`,
then a fully transparent frame (disposal list shorter than the frame
list). -/
def exGifC1 : GIF := ⟨[exFrameRed, exFrameClear], [2]⟩

/-- Three-frame animation: transparent frame with disposal `None`, opaque
blue frame with disposal `RestorePrevious`, transparent frame with
disposal `None`. -/
def exGifC2 : GIF := ⟨[exFrameClear, exFrameBlue, exFrameClear], [1, 3, 1]⟩

end Gif2Png
namespace Gif2Png

theorem over_transparent (d : Color) : d.over Color.transparent = d := by
  cases d with
  | mk r g b a =>
    simp [Color.over, Color.transparent, overChannel, colorMax,
      Nat.mul_div_cancel]

theorem transparent_over (s : Color) : Color.transparent.over s = s := by
  cases s with
  | mk r g b a => simp [Color.over, Color.transparent, overChannel]

theorem over_opaque (d s : Color) (h : s.a = colorMax) : d.over s = s := by
  cases s with
  | mk r g b a =>
    simp only [colorMax] at h
    subst h
    simp [Color.over, overChannel, colorMax]

theorem drawFrame_rect (dst : RGBA) (src : Paletted) (b : Rect) :
    (drawFrame dst src b).rect = dst.rect := rfl

theorem drawFrame_pix (dst : RGBA) (src : Paletted) (b : Rect) (x y : ℤ) :
    (drawFrame dst src b).pix x y =
      if b.contains x y && dst.rect.contains x y && src.rect.contains x y then
        (dst.pix x y).over (src.colorAt x y)
      else dst.pix x y := by
  have hx : b.minX + (x - b.minX) = x := by ring
  have hy : b.minY + (y - b.minY) = y := by ring
  simp only [drawFrame, drawDraw, hx, hy, applyOp]

theorem clearToTransparent_new (b : Rect) :
    clearToTransparent (newRGBA b) b = newRGBA b := by
  unfold clearToTransparent drawDraw newRGBA
  congr 1
  funext x y
  split <;> rfl

theorem copyCanvas_rect (img : RGBA) (b : Rect) :
    (copyCanvas img b).rect = b := rfl

theorem copyCanvas_pix (img : RGBA) (b : Rect) (h : img.rect = b) (x y : ℤ)
    (hb : b.contains x y = true) :
    (copyCanvas img b).pix x y = img.pix x y := by
  have hx : b.minX + (x - b.minX) = x := by ring
  have hy : b.minY + (y - b.minY) = y := by ring
  simp only [copyCanvas, drawDraw, newRGBA, hx, hy, applyOp, h, hb,
    Bool.and_self, if_true, RGBA.pixAt]
  simp [hb, transparent_over, h]

theorem compositeStep_rect (g : GIF) (b : Rect) (img : RGBA) (i : ℕ) :
    (compositeStep g b img i).rect = img.rect := by
  simp only [compositeStep]
  repeat' split
  all_goals rfl

theorem compositeUpTo_rect (g : GIF) (b : Rect) (n : ℕ) :
    (compositeUpTo g b n).rect = b := by
  induction n with
  | zero => simp [compositeUpTo, compositeStep_rect, newRGBA]
  | succ n ih => simp [compositeUpTo, compositeStep_rect, ih]

theorem compositeStep_plain (g : GIF) (b : Rect) (img : RGBA) (i : ℕ)
    (h2 : effectiveDisposal g i ≠ disposalBackground)
    (h3 : effectiveDisposal g i ≠ disposalPrevious) :
    compositeStep g b img i =
      drawFrame img (g.image.getD i defaultPaletted) b := by
  unfold compositeStep
  by_cases h1 : effectiveDisposal g i = disposalNone <;> simp [h1, h2, h3]

theorem compositeStep_background (g : GIF) (b : Rect) (img : RGBA) (i : ℕ)
    (h : effectiveDisposal g i = disposalBackground) :
    compositeStep g b img i =
      drawFrame (clearToTransparent img b)
        (g.image.getD i defaultPaletted) b := by
  unfold compositeStep
  simp [h, disposalNone, disposalBackground]

theorem compositeStep_previous_pos (g : GIF) (b : Rect) (img : RGBA) (i : ℕ)
    (h : effectiveDisposal g i = disposalPrevious) (hi : 0 < i) :
    compositeStep g b img i =
      drawDraw (drawFrame img (g.image.getD i defaultPaletted) b) b
        (copyCanvas img b).rect (copyCanvas img b).pixAt
        b.minX b.minY Op.over := by
  unfold compositeStep
  simp [h, disposalNone, disposalBackground, disposalPrevious, hi]

theorem compositeStep_previous_zero (g : GIF) (b : Rect) (img : RGBA)
    (h : effectiveDisposal g 0 = disposalPrevious) :
    compositeStep g b img 0 =
      drawFrame img (g.image.getD 0 defaultPaletted) b := by
  unfold compositeStep
  simp [h, disposalNone, disposalBackground, disposalPrevious]

theorem compositeStep_zero_new (g : GIF) (b : Rect) :
    compositeStep g b (newRGBA b) 0 =
      drawFrame (newRGBA b) (g.image.getD 0 defaultPaletted) b := by
  by_cases h2 : effectiveDisposal g 0 = disposalBackground
  · rw [compositeStep_background g b _ 0 h2, clearToTransparent_new]
  · by_cases h3 : effectiveDisposal g 0 = disposalPrevious
    · exact compositeStep_previous_zero g b _ h3
    · exact compositeStep_plain g b _ 0 h2 h3

end Gif2Png
namespace Gif2Png

theorem Rect.contains_iff (rc : Rect) (x y : ℤ) :
    rc.contains x y = true ↔
      rc.minX ≤ x ∧ x < rc.maxX ∧ rc.minY ≤ y ∧ y < rc.maxY := by
  simp [Rect.contains, and_assoc]

/-- Claim C3: compositing at target index 0 equals drawing frame 0 alone,
source-over, onto a freshly allocated empty transparent canvas with
frame 0's own bounds, and the result is independent of every disposal
code. -/
theorem composite_frame_zero (g : GIF) (d : List ℕ) :
    gifFrameToImage g 0 =
      drawFrame (newRGBA (g.image.getD 0 defaultPaletted).rect)
        (g.image.getD 0 defaultPaletted)
        (g.image.getD 0 defaultPaletted).rect ∧
    gifFrameToImage ⟨g.image, d⟩ 0 = gifFrameToImage g 0 :=
  ⟨rfl, rfl⟩

/-- Claim C9: the compositor is a pure function of the animation's frame
and disposal data: any two animations with the same frames and the same
disposal codes composite to bit-identical rasters at every index, so two
invocations on the same pair agree. -/
theorem composite_deterministic (g₁ g₂ : GIF) (i : ℕ)
    (h1 : g₁.image = g₂.image) (h2 : g₁.disposal = g₂.disposal) :
    gifFrameToImage g₁ i = gifFrameToImage g₂ i := by
  cases g₁
  cases g₂
  cases h1
  cases h2
  rfl

/-- Witness for C9 at a concrete animation and index. -/
theorem composite_deterministic_witness :
    exGifC1.image = [exFrameRed, exFrameClear] ∧
    exGifC1.disposal = [2] ∧
    gifFrameToImage exGifC1 1 =
      gifFrameToImage ⟨[exFrameRed, exFrameClear], [2]⟩ 1 :=
  ⟨rfl, rfl, composite_deterministic _ _ 1 rfl rfl⟩

/-- Claim C6: when the disposal list is shorter than the frame list, a
frame index beyond it gets the default disposal code via the
bounds-checked lookup, and the loop body is the plain draw-and-leave of
the default branch — no out-of-range access is possible. -/
theorem disposal_default_short (g : GIF) (b : Rect) (img : RGBA) (i : ℕ)
    (h : g.disposal.length ≤ i) :
    effectiveDisposal g i = 0 ∧
    compositeStep g b img i =
      drawFrame img (g.image.getD i defaultPaletted) b := by
  have he : effectiveDisposal g i = 0 := by
    unfold effectiveDisposal
    simp [Nat.not_lt.mpr h]
  refine ⟨he, compositeStep_plain g b img i ?_ ?_⟩
  · rw [he]; decide
  · rw [he]; decide

/-- Witness for C6: two frames, one disposal entry, target loop index 1. -/
theorem disposal_default_short_witness :
    exGifC1.disposal.length ≤ 1 ∧
    (effectiveDisposal exGifC1 1 = 0 ∧
      compositeStep exGifC1 exRect (newRGBA exRect) 1 =
        drawFrame (newRGBA exRect) (exGifC1.image.getD 1 defaultPaletted)
          exRect) :=
  ⟨by decide, disposal_default_short exGifC1 exRect (newRGBA exRect) 1
    (by decide)⟩

/-- Claim C7: a loop index whose disposal code is `None`, or anything
other than `RestoreBackground` and `RestorePrevious` (the fourth defined
GIF value 4 and the unrecognized 0 included), is composited by the plain
source-over draw-and-leave. -/
theorem disposal_unrecognized (g : GIF) (b : Rect) (img : RGBA) (i : ℕ)
    (h : effectiveDisposal g i = disposalNone ∨
      (effectiveDisposal g i ≠ disposalBackground ∧
        effectiveDisposal g i ≠ disposalPrevious)) :
    compositeStep g b img i =
      drawFrame img (g.image.getD i defaultPaletted) b := by
  rcases h with h | ⟨h2, h3⟩
  · refine compositeStep_plain g b img i ?_ ?_
    · rw [h]; decide
    · rw [h]; decide
  · exact compositeStep_plain g b img i h2 h3

/-- Witness for C7 at disposal code 4, the fourth defined GIF value. -/
theorem disposal_unrecognized_witness :
    (effectiveDisposal ⟨[exFrameRed, exFrameBlue], [1, 4]⟩ 1 = disposalNone ∨
      (effectiveDisposal ⟨[exFrameRed, exFrameBlue], [1, 4]⟩ 1 ≠
          disposalBackground ∧
        effectiveDisposal ⟨[exFrameRed, exFrameBlue], [1, 4]⟩ 1 ≠
          disposalPrevious)) ∧
    compositeStep ⟨[exFrameRed, exFrameBlue], [1, 4]⟩ exRect
        (newRGBA exRect) 1 =
      drawFrame (newRGBA exRect)
        ((⟨[exFrameRed, exFrameBlue], [1, 4]⟩ : GIF).image.getD 1
          defaultPaletted) exRect :=
  ⟨Or.inr ⟨by decide, by decide⟩,
    disposal_unrecognized ⟨[exFrameRed, exFrameBlue], [1, 4]⟩ exRect
      (newRGBA exRect) 1 (Or.inr ⟨by decide, by decide⟩)⟩

/-- Claim C10: `drawFrame` composites in the shared absolute coordinate
system — destination region is the target rectangle, source point its
minimum, so destination point `(x, y)` reads source point `(x, y)`; a
frame is drawn at its own absolute position clipped to the target
rectangle and the destination bounds, pixels outside are untouched; and
the raster returned by the compositor always carries the target frame's
own rectangle. -/
theorem drawFrame_absolute (dst : RGBA) (src : Paletted) (b : Rect)
    (x y : ℤ) :
    (drawFrame dst src b).rect = dst.rect ∧
    (drawFrame dst src b).pix x y =
      (if b.contains x y && dst.rect.contains x y &&
          src.rect.contains x y then
        (dst.pix x y).over (src.colorAt x y)
      else dst.pix x y) ∧
    ∀ (g : GIF) (k : ℕ),
      (gifFrameToImage g k).rect = (g.image.getD k defaultPaletted).rect := by
  refine ⟨rfl, drawFrame_pix dst src b x y, ?_⟩
  intro g k
  unfold gifFrameToImage
  by_cases hk : k = 0 <;>
    simp [hk, compositeUpTo_rect, drawFrame_rect, newRGBA]

/-- Claim C5: a loop index whose disposal code is `RestoreBackground`
first clears the full canvas rectangle to transparent (discarding all
prior content) and then draws the frame source-over onto the cleared
canvas. -/
theorem step_restore_background (g : GIF) (b : Rect) (img : RGBA) (i : ℕ)
    (hd : effectiveDisposal g i = disposalBackground) :
    compositeStep g b img i =
      drawFrame (clearToTransparent img b)
        (g.image.getD i defaultPaletted) b ∧
    (img.rect = b → b.maxX - b.minX ≤ 10 ^ 9 → b.maxY - b.minY ≤ 10 ^ 9 →
      ∀ x y : ℤ, b.contains x y = true →
        (clearToTransparent img b).pix x y = Color.transparent) := by
  refine ⟨compositeStep_background g b img i hd, ?_⟩
  intro hr hbx hby x y hxy
  obtain ⟨h1, h2, h3, h4⟩ := (Rect.contains_iff b x y).mp hxy
  have hpow : (10 : ℤ) ^ 9 = 1000000000 := by norm_num
  rw [hpow] at hbx hby
  have hu : uniformRect.contains (x - b.minX) (y - b.minY) = true := by
    rw [Rect.contains_iff]
    norm_num [uniformRect]
    omega
  unfold clearToTransparent drawDraw
  simp [hr, hxy, hu, applyOp]

end Gif2Png
namespace Gif2Png

/-- Claim C4: a loop index `i > 0` with disposal `RestorePrevious`
snapshots the canvas into a temporary raster, draws frame `i` source-over
onto the live canvas, then draws the snapshot back source-over; hence the
result keeps the snapshot's pixel wherever the snapshot is opaque and
keeps frame `i`'s drawn pixel wherever the snapshot is transparent; at
`i = 0` the code degrades to a plain source-over draw of frame 0. -/
theorem step_restore_previous (g : GIF) (b : Rect) (img : RGBA) (i : ℕ)
    (hd : effectiveDisposal g i = disposalPrevious) :
    (0 < i → compositeStep g b img i =
      drawDraw (drawFrame img (g.image.getD i defaultPaletted) b) b
        (copyCanvas img b).rect (copyCanvas img b).pixAt
        b.minX b.minY Op.over) ∧
    (img.rect = b → ∀ x y : ℤ, b.contains x y = true →
      (copyCanvas img b).pix x y = img.pix x y) ∧
    (0 < i → img.rect = b → ∀ x y : ℤ, b.contains x y = true →
      (((img.pix x y).a = colorMax →
          (compositeStep g b img i).pix x y = img.pix x y) ∧
        (img.pix x y = Color.transparent →
          (compositeStep g b img i).pix x y =
            (drawFrame img (g.image.getD i defaultPaletted) b).pix x y))) ∧
    (i = 0 → compositeStep g b img i =
      drawFrame img (g.image.getD i defaultPaletted) b) := by
  refine ⟨compositeStep_previous_pos g b img i hd, copyCanvas_pix img b, ?_, ?_⟩
  · intro hi hr x y hxy
    rw [compositeStep_previous_pos g b img i hd hi]
    have hx : b.minX + (x - b.minX) = x := by ring
    have hy : b.minY + (y - b.minY) = y := by ring
    have hres : (drawDraw (drawFrame img (g.image.getD i defaultPaletted) b)
        b (copyCanvas img b).rect (copyCanvas img b).pixAt
        b.minX b.minY Op.over).pix x y =
        ((drawFrame img (g.image.getD i defaultPaletted) b).pix x y).over
          (img.pix x y) := by
      simp only [drawDraw, hx, hy, copyCanvas_rect, drawFrame_rect, hr, hxy,
        Bool.and_self, if_true, applyOp, RGBA.pixAt]
      rw [copyCanvas_pix img b hr x y hxy]
    rw [hres]
    constructor
    · intro ha
      exact over_opaque _ _ ha
    · intro ht
      rw [ht, over_transparent]
  · intro hi
    subst hi
    exact compositeStep_previous_zero g b img hd

/-- Witness for C4 at the concrete three-frame animation, loop index 1. -/
theorem step_restore_previous_witness :
    effectiveDisposal exGifC2 1 = disposalPrevious ∧
    ((0 < 1 → compositeStep exGifC2 exRect (newRGBA exRect) 1 =
      drawDraw
        (drawFrame (newRGBA exRect) (exGifC2.image.getD 1 defaultPaletted)
          exRect) exRect
        (copyCanvas (newRGBA exRect) exRect).rect
        (copyCanvas (newRGBA exRect) exRect).pixAt
        exRect.minX exRect.minY Op.over) ∧
    ((newRGBA exRect).rect = exRect → ∀ x y : ℤ,
      exRect.contains x y = true →
      (copyCanvas (newRGBA exRect) exRect).pix x y =
        (newRGBA exRect).pix x y) ∧
    (0 < 1 → (newRGBA exRect).rect = exRect → ∀ x y : ℤ,
      exRect.contains x y = true →
      ((((newRGBA exRect).pix x y).a = colorMax →
          (compositeStep exGifC2 exRect (newRGBA exRect) 1).pix x y =
            (newRGBA exRect).pix x y) ∧
        ((newRGBA exRect).pix x y = Color.transparent →
          (compositeStep exGifC2 exRect (newRGBA exRect) 1).pix x y =
            (drawFrame (newRGBA exRect)
              (exGifC2.image.getD 1 defaultPaletted) exRect).pix x y))) ∧
    ((1 : ℕ) = 0 → compositeStep exGifC2 exRect (newRGBA exRect) 1 =
      drawFrame (newRGBA exRect) (exGifC2.image.getD 1 defaultPaletted)
        exRect)) :=
  ⟨by decide, step_restore_previous exGifC2 exRect (newRGBA exRect) 1
    (by decide)⟩

/-- Witness for C5 at the concrete two-frame animation, loop index 0. -/
theorem step_restore_background_witness :
    effectiveDisposal exGifC1 0 = disposalBackground ∧
    (compositeStep exGifC1 exRect (newRGBA exRect) 0 =
      drawFrame (clearToTransparent (newRGBA exRect) exRect)
        (exGifC1.image.getD 0 defaultPaletted) exRect ∧
    ((newRGBA exRect).rect = exRect →
      exRect.maxX - exRect.minX ≤ 10 ^ 9 →
      exRect.maxY - exRect.minY ≤ 10 ^ 9 →
      ∀ x y : ℤ, exRect.contains x y = true →
        (clearToTransparent (newRGBA exRect) exRect).pix x y =
          Color.transparent)) :=
  ⟨by decide, step_restore_background exGifC1 exRect (newRGBA exRect) 0
    (by decide)⟩

/-- Claim C8: the composite at a valid index `k` reads only frames and
disposal entries `0..k`, so appending frames, and disposal codes landing
at indices above `k`, leaves it bit-identical. -/
theorem composite_prefix_independent (g : GIF) (extraI : List Paletted)
    (extraD : List ℕ) (k : ℕ) (hk : k < g.image.length)
    (hd : extraD = [] ∨ k < g.disposal.length) :
    gifFrameToImage ⟨g.image ++ extraI, g.disposal ++ extraD⟩ k =
      gifFrameToImage g k := by
  have himg : ∀ i, i ≤ k →
      (g.image ++ extraI).getD i defaultPaletted =
        g.image.getD i defaultPaletted := by
    intro i hi
    exact List.getD_append _ _ _ _ (lt_of_le_of_lt hi hk)
  have heff : ∀ i, i ≤ k →
      effectiveDisposal ⟨g.image ++ extraI, g.disposal ++ extraD⟩ i =
        effectiveDisposal g i := by
    intro i hi
    rcases hd with h | h
    · subst h
      simp [effectiveDisposal]
    · have hlen : i < g.disposal.length := lt_of_le_of_lt hi h
      have hlen2 : i < (g.disposal ++ extraD).length := by
        simp [List.length_append]
        omega
      simp only [effectiveDisposal, hlen, hlen2, if_true]
      exact List.getD_append _ _ _ _ hlen
  have hstep : ∀ (b : Rect) (img : RGBA) (i : ℕ), i ≤ k →
      compositeStep ⟨g.image ++ extraI, g.disposal ++ extraD⟩ b img i =
        compositeStep g b img i := by
    intro b img i hi
    unfold compositeStep
    rw [heff i hi, himg i hi]
  have hupto : ∀ (b : Rect) (j : ℕ), j ≤ k →
      compositeUpTo ⟨g.image ++ extraI, g.disposal ++ extraD⟩ b j =
        compositeUpTo g b j := by
    intro b j hj
    induction j with
    | zero =>
      unfold compositeUpTo
      exact hstep b (newRGBA b) 0 (Nat.zero_le k)
    | succ n ih =>
      unfold compositeUpTo
      rw [ih (Nat.le_of_succ_le hj), hstep b _ (n + 1) hj]
  unfold gifFrameToImage
  rw [himg k le_rfl]
  by_cases hk0 : k = 0
  · simp [hk0]
  · simp only [hk0, if_false]
    exact hupto _ k le_rfl

/-- Witness for C8: one original frame, one appended frame and disposal
entry, target index 0. -/
theorem composite_prefix_independent_witness :
    0 < (⟨[exFrameRed], [1]⟩ : GIF).image.length ∧
    gifFrameToImage
        ⟨(⟨[exFrameRed], [1]⟩ : GIF).image ++ [exFrameBlue],
          (⟨[exFrameRed], [1]⟩ : GIF).disposal ++ []⟩ 0 =
      gifFrameToImage ⟨[exFrameRed], [1]⟩ 0 :=
  ⟨by decide, composite_prefix_independent ⟨[exFrameRed], [1]⟩ [exFrameBlue]
    [] 0 (by decide) (Or.inl rfl)⟩

end Gif2Png
namespace Gif2Png

/-- Counterexample to claim C1 as stated: in the two-frame animation with
an opaque red frame 0 carrying disposal `RestoreBackground` and a fully
transparent frame 1, the composite at index 1 still shows frame 0's red
pixel, while frame 1 drawn alone on an empty canvas is transparent — the
clear is applied before frame 0 is drawn, not after it. -/
theorem background_frame0_counterexample :
    (gifFrameToImage exGifC1 1).pix 0 0 = exRed ∧
    exFrameRed.colorAt 0 0 = exRed ∧
    (drawFrame (newRGBA exRect) exFrameClear exRect).pix 0 0 =
      Color.transparent ∧
    exRed ≠ Color.transparent := by decide

/-- Claim C1 amended: with frame 0 fully opaque and disposal
`RestoreBackground`, and frame 1's disposal neither `RestoreBackground`
nor `RestorePrevious`, the composite at index 1 is frame 1 drawn
source-over on top of frame 0's own composite (the background clear
precedes frame 0's draw and so erases nothing); frame 0's pixels remain
visible wherever frame 1 is transparent. -/
theorem composite_background_frame0_amended (f0 f1 : Paletted) (d1 : ℕ)
    (hopq : ∀ x y : ℤ, f0.rect.contains x y = true →
      (f0.colorAt x y).a = colorMax)
    (hd1 : d1 ≠ disposalBackground ∧ d1 ≠ disposalPrevious) :
    gifFrameToImage ⟨[f0, f1], [disposalBackground, d1]⟩ 1 =
      drawFrame (drawFrame (newRGBA f1.rect) f0 f1.rect) f1 f1.rect ∧
    ∀ x y : ℤ, f1.rect.contains x y = true →
      f0.rect.contains x y = true →
      f1.colorAt x y = Color.transparent →
      (gifFrameToImage ⟨[f0, f1], [disposalBackground, d1]⟩ 1).pix x y =
        f0.colorAt x y := by
  have heff1 : effectiveDisposal ⟨[f0, f1], [disposalBackground, d1]⟩ 1 =
      d1 := by
    simp [effectiveDisposal]
  have h1 : gifFrameToImage ⟨[f0, f1], [disposalBackground, d1]⟩ 1 =
      drawFrame (drawFrame (newRGBA f1.rect) f0 f1.rect) f1 f1.rect := by
    have h0 : gifFrameToImage ⟨[f0, f1], [disposalBackground, d1]⟩ 1 =
        compositeStep ⟨[f0, f1], [disposalBackground, d1]⟩ f1.rect
          (compositeStep ⟨[f0, f1], [disposalBackground, d1]⟩ f1.rect
            (newRGBA f1.rect) 0) 1 := by
      simp [gifFrameToImage, compositeUpTo]
    rw [h0, compositeStep_zero_new,
      compositeStep_plain _ _ _ 1 (by rw [heff1]; exact hd1.1)
        (by rw [heff1]; exact hd1.2)]
    rfl
  refine ⟨h1, ?_⟩
  intro x y hx1 hx0 ht
  rw [h1, drawFrame_pix]
  have hrect : (drawFrame (newRGBA f1.rect) f0 f1.rect).rect = f1.rect := rfl
  rw [hrect, hx1]
  simp only [Bool.and_self, if_true, ht, over_transparent]
  rw [drawFrame_pix]
  have hrect2 : (newRGBA f1.rect).rect = f1.rect := rfl
  rw [hrect2, hx1, hx0]
  simp only [Bool.and_self, if_true, newRGBA, transparent_over]

/-- Witness for the amended C1 at the concrete red/transparent pair. -/
theorem composite_background_frame0_amended_witness :
    (∀ x y : ℤ, exFrameRed.rect.contains x y = true →
      (exFrameRed.colorAt x y).a = colorMax) ∧
    ((1 : ℕ) ≠ disposalBackground ∧ (1 : ℕ) ≠ disposalPrevious) ∧
    gifFrameToImage ⟨[exFrameRed, exFrameClear], [disposalBackground, 1]⟩ 1 =
      drawFrame (drawFrame (newRGBA exFrameClear.rect) exFrameRed
        exFrameClear.rect) exFrameClear exFrameClear.rect :=
  ⟨fun x y _ => by simp [Paletted.colorAt, exFrameRed, exRed, colorMax],
   ⟨by decide, by decide⟩,
   (composite_background_frame0_amended exFrameRed exFrameClear 1
     (fun x y _ => by simp [Paletted.colorAt, exFrameRed, exRed, colorMax])
     ⟨by decide, by decide⟩).1⟩

/-- Counterexample to claim C2 as stated: in the three-frame animation
with a transparent frame 0, an opaque blue frame 1 carrying disposal
`RestorePrevious`, and a transparent frame 2, the composite at index 2 is
frame 1's blue pixel even though frame 2 draws nothing there — frame 1's
content leaks because the snapshot restore is source-over and the
snapshot was transparent. -/
theorem restore_previous_counterexample :
    (gifFrameToImage exGifC2 2).pix 0 0 = exBlue ∧
    exFrameBlue.colorAt 0 0 = exBlue ∧
    exFrameClear.colorAt 0 0 = Color.transparent ∧
    exBlue ≠ Color.transparent := by decide

theorem restore_draw_pix (img img2 : RGBA) (b : Rect) (hr : img.rect = b)
    (hr2 : img2.rect = b) (x y : ℤ) (hxy : b.contains x y = true) :
    (drawDraw img2 b (copyCanvas img b).rect (copyCanvas img b).pixAt
      b.minX b.minY Op.over).pix x y = (img2.pix x y).over (img.pix x y) := by
  have hx : b.minX + (x - b.minX) = x := by ring
  have hy : b.minY + (y - b.minY) = y := by ring
  simp only [drawDraw, hx, hy, copyCanvas_rect, hr2, hxy, Bool.and_self,
    if_true, applyOp, RGBA.pixAt]
  rw [copyCanvas_pix img b hr x y hxy]

/-- Claim C2 amended: in a three-frame animation whose middle frame has
disposal `RestorePrevious` and whose last frame has a draw-and-leave
disposal, at a canvas pixel where frame 2 is transparent the composite at
index 2 equals frame 0's composited pixel whenever that pixel is opaque
(frame 1 is fully hidden there), but equals the pixel of frame 1 drawn
over frame 0 wherever frame 0's composite is transparent — frame 1 leaks
exactly where the pre-frame-1 canvas was transparent, because the
snapshot restore is source-over. -/
theorem composite_restore_previous_amended (f0 f1 f2 : Paletted)
    (d0 d2 : ℕ)
    (hd2 : d2 ≠ disposalBackground ∧ d2 ≠ disposalPrevious) :
    ∀ x y : ℤ, f2.rect.contains x y = true →
      f2.colorAt x y = Color.transparent →
      ((((drawFrame (newRGBA f2.rect) f0 f2.rect).pix x y).a = colorMax →
        (gifFrameToImage
            ⟨[f0, f1, f2], [d0, disposalPrevious, d2]⟩ 2).pix x y =
          (drawFrame (newRGBA f2.rect) f0 f2.rect).pix x y) ∧
      ((drawFrame (newRGBA f2.rect) f0 f2.rect).pix x y =
          Color.transparent →
        (gifFrameToImage
            ⟨[f0, f1, f2], [d0, disposalPrevious, d2]⟩ 2).pix x y =
          (drawFrame (drawFrame (newRGBA f2.rect) f0 f2.rect) f1
            f2.rect).pix x y)) := by
  intro x y hxy ht
  have heff1 : effectiveDisposal
      ⟨[f0, f1, f2], [d0, disposalPrevious, d2]⟩ 1 = disposalPrevious := by
    simp [effectiveDisposal]
  have heff2 : effectiveDisposal
      ⟨[f0, f1, f2], [d0, disposalPrevious, d2]⟩ 2 = d2 := by
    simp [effectiveDisposal]
  have h0 : gifFrameToImage ⟨[f0, f1, f2], [d0, disposalPrevious, d2]⟩ 2 =
      compositeStep ⟨[f0, f1, f2], [d0, disposalPrevious, d2]⟩ f2.rect
        (compositeStep ⟨[f0, f1, f2], [d0, disposalPrevious, d2]⟩ f2.rect
          (compositeStep ⟨[f0, f1, f2], [d0, disposalPrevious, d2]⟩ f2.rect
            (newRGBA f2.rect) 0) 1) 2 := by
    simp [gifFrameToImage, compositeUpTo]
  rw [h0, compositeStep_zero_new,
    compositeStep_previous_pos _ _ _ 1 heff1 (by omega),
    compositeStep_plain _ _ _ 2 (by rw [heff2]; exact hd2.1)
      (by rw [heff2]; exact hd2.2)]
  simp only [List.getD_cons_zero, List.getD_cons_succ]
  set c1 := drawFrame (newRGBA f2.rect) f0 f2.rect with hc1d
  set a2 := drawFrame c1 f1 f2.rect with ha2d
  set rr := drawDraw a2 f2.rect (copyCanvas c1 f2.rect).rect
    (copyCanvas c1 f2.rect).pixAt f2.rect.minX f2.rect.minY Op.over
    with hrrd
  have hrrect : rr.rect = f2.rect := rfl
  have houter : (drawFrame rr f2 f2.rect).pix x y = rr.pix x y := by
    rw [drawFrame_pix, hrrect, hxy, ht]
    simp [over_transparent]
  have hinner : rr.pix x y = (a2.pix x y).over (c1.pix x y) := by
    rw [hrrd]
    exact restore_draw_pix c1 a2 f2.rect rfl rfl x y hxy
  rw [houter, hinner]
  constructor
  · intro ha
    exact over_opaque _ _ ha
  · intro htr
    rw [htr, over_transparent]
end Gif2Png
namespace Gif2Png

/-- Witness for the amended C2: red, blue, transparent one-pixel frames;
frame 0's composite is opaque at the pixel, so the index-2 composite
equals it there. -/
theorem composite_restore_previous_amended_witness :
    ((1 : ℕ) ≠ disposalBackground ∧ (1 : ℕ) ≠ disposalPrevious) ∧
    exFrameClear.rect.contains 0 0 = true ∧
    exFrameClear.colorAt 0 0 = Color.transparent ∧
    ((drawFrame (newRGBA exFrameClear.rect) exFrameRed
        exFrameClear.rect).pix 0 0).a = colorMax ∧
    (gifFrameToImage
        ⟨[exFrameRed, exFrameBlue, exFrameClear],
          [1, disposalPrevious, 1]⟩ 2).pix 0 0 =
      (drawFrame (newRGBA exFrameClear.rect) exFrameRed
        exFrameClear.rect).pix 0 0 :=
  ⟨⟨by decide, by decide⟩, by decide, by decide, by decide,
    (composite_restore_previous_amended exFrameRed exFrameBlue exFrameClear
      1 1 ⟨by decide, by decide⟩ 0 0 (by decide) (by decide)).1 (by decide)⟩

end Gif2Png
